import Mathlib

/-!
# Verification of the juria-blockchain core against its specification

This file gives a shallow embedding of the core wire types (Block,
Transaction, TxCommit, TxList, QuorumCert), the sparse Merkle tree, and the
storage commit pipeline of the repository, and proves the specification
claims about them.

Byte strings are modelled as `List Nat` (one `Nat` per byte; no operation
below depends on bytes being bounded).  The sha3-256 / sha1 hash functions
live in an external library, so hashing is modelled by an explicit function
parameter `H : Bytes → Bytes`; theorems about hash preimages hold for every
`H`, and concrete scenarios instantiate `H` with the injective stand-in
`modelHash`.
-/

namespace Juria

/-- Byte strings, one `Nat` per byte. -/
abbrev Bytes := List Nat

/-- `uint64ToBytes`: big-endian 8-byte encoding of a `uint64`
(util function of the repository; the spec mandates big-endian integer
encoding for all hashed integers). -/
def be8 (n : Nat) : Bytes :=
  [n / 2 ^ 56 % 256, n / 2 ^ 48 % 256, n / 2 ^ 40 % 256, n / 2 ^ 32 % 256,
   n / 2 ^ 24 % 256, n / 2 ^ 16 % 256, n / 2 ^ 8 % 256, n % 256]

/-- `binary.Write(h, binary.BigEndian, int64)`: the 8-byte big-endian
two's-complement encoding of an `int64`. -/
def be8Int (i : Int) : Bytes :=
  be8 (i % (2 ^ 64 : Int)).toNat

/-- Injective executable stand-in for a cryptographic hash function,
used to instantiate concrete scenarios (it plays the role sha3-256 / sha1
play in the program; only injectivity on the inputs that occur is used). -/
def modelHash (m : Bytes) : Bytes := 0 :: m

/-! ## Crypto primitives

Modelled from the spec: the crypto component (C1, "keypairs, signatures
(ed25519-class), sha3-256 hashing") is not under `src/`; only its callers
are.  Public keys are 32-byte strings (`ed25519.PublicKeySize`); a private
key is a seed `k : Nat` with public key `pubOf k`; a signature value
verifies under a public key and message exactly when it equals the byte
string the holder of that key produces for that message. -/

/-- Public-key byte length required by `NewPublicKey`. -/
def pubKeySize : Nat := 32

/-- Public key derived from a private seed (injective, 32 bytes). -/
def pubOf (k : Nat) : Bytes := k :: List.replicate 31 0

/-- A `core_pb.Signature`: public-key bytes plus signature bytes. -/
structure SigData where
  pubKey : Bytes
  value : Bytes
  deriving Repr, DecidableEq

/-- The signature the holder of seed `k` produces over `msg`. -/
def signWith (k : Nat) (msg : Bytes) : SigData :=
  ⟨pubOf k, pubOf k ++ msg⟩

/-- Signature verification: the value must be the unique byte string that
the key's holder produces over `msg`. -/
def sigVerify (s : SigData) (msg : Bytes) : Bool :=
  s.value == s.pubKey ++ msg

deriving instance DecidableEq for Except

/-- Error kinds of the `core` package (§7 of the spec). -/
inductive CoreError where
  | nilBlock | nilTx | nilQC | nilSig
  | invalidBlockHash | invalidTxHash | invalidSig | invalidValidator
  | insufficientSignatures | duplicateSigner | badPubKey
  deriving Repr, DecidableEq

/-- `newSignature`: wraps a `core_pb.Signature`, failing on a nil message
or on public-key bytes of the wrong length.

Modelled from the spec: the signature wrapper is not under `src/`;
`Transaction.Validate` and `Block.Validate` (which are) consume its
`(sig, err)` result. -/
def newSignature : Option SigData → Except CoreError SigData
  | none => .error .nilSig
  | some s => if s.pubKey.length = pubKeySize then .ok s else .error .badPubKey

/-- The validator store: the fixed ordered validator set (`ValidatorStore`
with `ValidatorCount` and `IsValidator`). -/
structure ValidatorStore where
  validators : List Bytes
  deriving Repr, DecidableEq

def ValidatorStore.count (vs : ValidatorStore) : Nat := vs.validators.length

def ValidatorStore.isValidator (vs : ValidatorStore) (pk : Bytes) : Bool :=
  vs.validators.contains pk

/-! ## QuorumCert

Modelled from the spec: the `QuorumCert` implementation is not under
`src/` (only its test `TestQuorumCert` is).  §3: a QC is
`{block_hash, signatures[]}`; valid iff every signature's public key is a
validator, every signature verifies over `block_hash`, signer keys are
pairwise distinct, and the count is at least `Q = N − ⌊(N−1)/3⌋`. -/

/-- Quorum threshold `Q = N − ⌊(N−1)/3⌋`. -/
def quorum (n : Nat) : Nat := n - (n - 1) / 3

/-- `core_pb.QuorumCert` data: certified block hash and vote signatures
(a signature may be nil, as in the nil-signature vote of `TestQuorumCert`). -/
structure QCData where
  blockHash : Bytes
  signatures : List (Option SigData)
  deriving Repr, DecidableEq

/-- A vote `{block_hash, signature}`. -/
structure Vote where
  blockHash : Bytes
  signature : Option SigData
  deriving Repr, DecidableEq

/-- `QuorumCert.Build`: assemble a QC from votes (block hash of the votes,
signatures collected in vote order). -/
def qcBuild (votes : List Vote) : QCData :=
  ⟨(votes.head?.map Vote.blockHash).getD [], votes.map Vote.signature⟩

/-- `newSigList`: parse every vote signature, propagating the first
failure. -/
def collectSigs : List (Option SigData) → Except CoreError (List SigData)
  | [] => .ok []
  | s :: rest =>
    match newSignature s with
    | .error e => .error e
    | .ok sd =>
      match collectSigs rest with
      | .error e => .error e
      | .ok sds => .ok (sd :: sds)

/-- Boolean duplicate test on the signer key list. -/
def hasDupKeys : List Bytes → Bool
  | [] => false
  | k :: rest => rest.contains k || hasDupKeys rest

/-- `QuorumCert.Validate`.  Modelled from the spec (implementation absent
from `src/`): parse the signatures, then require count ≥ quorum, pairwise
distinct signers, signers in the validator set, and every signature valid
over `block_hash`. -/
def qcValidate (vs : ValidatorStore) : Option QCData → Except CoreError Unit
  | none => .error .nilQC
  | some d =>
    match collectSigs d.signatures with
    | .error e => .error e
    | .ok sds =>
      if sds.length < quorum vs.count then .error .insufficientSignatures
      else if hasDupKeys (sds.map SigData.pubKey) then .error .duplicateSigner
      else if sds.any (fun s => !(vs.isValidator s.pubKey)) then .error .invalidValidator
      else if sds.any (fun s => !(sigVerify s d.blockHash)) then .error .invalidSig
      else .ok ()

/-! ## Block and Transaction (`src/core/block.go`) -/

/-- `core_pb.Block` data. -/
structure BlockData where
  height : Nat
  parentHash : Bytes
  proposer : Bytes
  quorumCert : Option QCData
  execHeight : Nat
  stateRoot : Bytes
  transactions : List Bytes
  hash : Bytes
  signature : Bytes
  deriving Repr, DecidableEq

/-- `core_pb.Transaction` data. -/
structure TxData where
  nonce : Int
  sender : Bytes
  codeAddr : Bytes
  input : Bytes
  hash : Bytes
  signature : Bytes
  deriving Repr, DecidableEq

/-- One `h.Write(b)` step of a Go hash writer: appends to the absorbed
input. -/
def hwrite (acc : Bytes) (b : Bytes) : Bytes := acc ++ b

/-- `Block.Sum` (src/core/block.go:35-49): sha3-256 (here: `H`) over the
sequence of writes `be(height)`, `parent_hash`, `proposer`,
`qc.block_hash` (skipped when the embedded QC is nil), `be(exec_height)`,
`state_root`, then each transaction hash in order. -/
def blockSum (H : Bytes → Bytes) (d : BlockData) : Bytes :=
  let acc := hwrite [] (be8 d.height)
  let acc := hwrite acc d.parentHash
  let acc := hwrite acc d.proposer
  let acc := match d.quorumCert with
    | some q => hwrite acc q.blockHash
    | none => acc
  let acc := hwrite acc (be8 d.execHeight)
  let acc := hwrite acc d.stateRoot
  H (d.transactions.foldl hwrite acc)

/-- `Transaction.Sum` (src/core/block.go:189-196): sha3-256 (here: `H`)
over `be(nonce) ∥ sender ∥ code_addr ∥ input`. -/
def txSum (H : Bytes → Bytes) (d : TxData) : Bytes :=
  let acc := hwrite [] (be8Int d.nonce)
  let acc := hwrite acc d.sender
  let acc := hwrite acc d.codeAddr
  H (hwrite acc d.input)

/-- Outcome of a Go function returning `error`: normal return of `nil`,
normal return of an error, or a runtime panic. -/
inductive VResult where
  | ok
  | error (e : CoreError)
  | panic
  deriving Repr, DecidableEq

/-- `Block` wrapper: the protobuf data pointer may be nil. -/
structure Block where
  data : Option BlockData
  deriving Repr, DecidableEq

/-- `Transaction` wrapper: the protobuf data pointer may be nil. -/
structure Transaction where
  data : Option TxData
  deriving Repr, DecidableEq

/-- `Block.Validate` (src/core/block.go:52-76), in source order:
nil-data check, embedded QC validation, hash recomputation, then
`newSignature` on the proposer key — whose result is dereferenced by
`vs.IsValidator(sig.PublicKey())` *before* the error is inspected, so a
failing `newSignature` is a nil-pointer dereference (a panic) — then the
validator-set check and finally signature verification. -/
def blockValidate (H : Bytes → Bytes) (vs : ValidatorStore) (blk : Block) : VResult :=
  match blk.data with
  | none => .error .nilBlock
  | some d =>
    match qcValidate vs d.quorumCert with
    | .error e => .error e
    | .ok _ =>
      if blockSum H d ≠ d.hash then .error .invalidBlockHash
      else
        match newSignature (some ⟨d.proposer, d.signature⟩) with
        | .error _ => .panic
        | .ok sig =>
          if !(vs.isValidator sig.pubKey) then .error .invalidValidator
          else if !(sigVerify sig d.hash) then .error .invalidSig
          else .ok

/-- `Transaction.Validate` (src/core/block.go:199-217), in source order:
nil-data check, hash recomputation, `newSignature` on the sender key with
the error inspected *before* use, then signature verification. -/
def txValidate (H : Bytes → Bytes) (tx : Transaction) : VResult :=
  match tx.data with
  | none => .error .nilTx
  | some d =>
    if txSum H d ≠ d.hash then .error .invalidTxHash
    else
      match newSignature (some ⟨d.sender, d.signature⟩) with
      | .error e => .error e
      | .ok sig =>
        if !(sigVerify sig d.hash) then .error .invalidSig
        else .ok

/-! ## Merkle tree

Modelled from the spec: the `merkle` package implementation is not under
`src/` (only its tests are).  §4.2: a sparse position-addressed tree with
branch factor `B`, parent of `(L, i)` at `(L+1, ⌊i/B⌋)`, parent data
`H(concat of child data, missing children contributing zero bytes)`;
`update` recomputes dirty ancestors level by level, stopping at a single
node of index 0 at a level ≥ the new height; the store keeps every node,
the leaf count and the height metadata (`TestTree_Root` pins the height
metadata as number-of-levels: the root lives at level `height − 1`). -/

/-- A node position `(level, index)`. -/
abbrev MPos := Nat × Nat

/-- A Merkle tree node `{position, data}`. -/
structure MNode where
  pos : MPos
  data : Bytes
  deriving Repr, DecidableEq

/-- The backing `MapStore`: nodes by position plus leaf-count and height
metadata. -/
structure MapStore where
  nodes : List (MPos × Bytes)
  leafCount : Nat
  height : Nat
  deriving Repr, DecidableEq

def MapStore.empty : MapStore := ⟨[], 0, 0⟩

def MapStore.getNode (s : MapStore) (p : MPos) : Option Bytes :=
  (s.nodes.find? (fun e => e.1 == p)).map Prod.snd

/-- Insert a node, overwriting the entry at an existing position. -/
def insertNode (ns : List (MPos × Bytes)) (p : MPos) (d : Bytes) : List (MPos × Bytes) :=
  if ns.any (fun e => e.1 == p) then ns.map (fun e => if e.1 == p then (p, d) else e)
  else ns ++ [(p, d)]

/-- `UpdateResult{leaves, branches, leaf_count, height, root}`. -/
structure UpdateResult where
  leaves : List MNode
  branches : List MNode
  leafCount : Nat
  height : Nat
  root : MNode
  deriving Repr, DecidableEq

/-- `⌈log_B n⌉` for `n > 1` (and 1 for `n ≤ 1`): the level of the root of
a tree with `n` leaves. -/
def clogAux (B n : Nat) : Nat → Nat → Nat → Nat
  | 0, h, _ => h
  | fuel + 1, h, pow => if n ≤ pow then h else clogAux B n fuel (h + 1) (pow * B)

/-- Root level for `n` leaves and branch factor `B`. -/
def rootLevel (B n : Nat) : Nat :=
  if n ≤ 1 then 1 else clogAux B n n 1 B

/-- Data of the child at index `c` of the current level: from the dirty
set if present, else from the store; a missing child contributes zero
bytes. -/
def childData (store : MapStore) (level : Nat) (dirty : List (Nat × Bytes)) (c : Nat) : Bytes :=
  match dirty.find? (fun e => e.1 == c) with
  | some e => e.2
  | none => (store.getNode (level, c)).getD []

/-- Concatenated data of the `B` children of parent index `p`. -/
def childConcat (store : MapStore) (level : Nat) (dirty : List (Nat × Bytes))
    (B p : Nat) : Bytes :=
  ((List.range B).map (fun j => childData store level dirty (p * B + j))).flatten

/-- Division by repeated subtraction (equal to `Nat.div` for positive
divisors; defined structurally so that tree computations reduce). -/
def ndivAux : Nat → Nat → Nat → Nat
  | 0, _, _ => 0
  | fuel + 1, a, b => if a < b then 0 else ndivAux fuel (a - b) b + 1

def ndiv (a b : Nat) : Nat := ndivAux a a b

/-- Insertion into a sorted list of indices. -/
def insertSorted (x : Nat) : List Nat → List Nat
  | [] => [x]
  | y :: ys => if x ≤ y then x :: y :: ys else y :: insertSorted x ys

/-- Structural insertion sort. -/
def sortNat (l : List Nat) : List Nat := l.foldr insertSorted []

/-- Structural duplicate removal. -/
def dedupNat : List Nat → List Nat
  | [] => []
  | x :: xs => if xs.contains x then dedupNat xs else x :: dedupNat xs

/-- Sorted, deduplicated parent indices of the dirty indices. -/
def parentIndexes (B : Nat) (dirty : List (Nat × Bytes)) : List Nat :=
  sortNat (dedupNat (dirty.map (fun e => ndiv e.1 B)))

/-- One level-by-level pass of `update`/`verify`: from the dirty nodes of
the current level, recompute the dirty parents, until a single node of
index 0 remains at a level ≥ `target`; returns the branch nodes computed
(in level order) and the final top node. -/
def upLoop (H : Bytes → Bytes) (B : Nat) (store : MapStore) :
    Nat → Nat → List (Nat × Bytes) → Nat → List MNode × MNode
  | 0, level, dirty, _ =>
    ([], ⟨(level, (dirty.head?.map Prod.fst).getD 0), (dirty.head?.map Prod.snd).getD []⟩)
  | fuel + 1, level, dirty, target =>
    match dirty with
    | [(0, d)] =>
      if target ≤ level then ([], ⟨(level, 0), d⟩)
      else
        let parents := (parentIndexes B dirty).map
          (fun p => (p, H (childConcat store level dirty B p)))
        let (bs, top) := upLoop H B store fuel (level + 1) parents target
        (parents.map (fun e => ⟨(level + 1, e.1), e.2⟩) ++ bs, top)
    | _ =>
      let parents := (parentIndexes B dirty).map
        (fun p => (p, H (childConcat store level dirty B p)))
      let (bs, top) := upLoop H B store fuel (level + 1) parents target
      (parents.map (fun e => ⟨(level + 1, e.1), e.2⟩) ++ bs, top)

/-- `Tree.Update(changed_leaves, new_leaf_count)`: pure recomputation of
every ancestor of the changed leaves (spec §4.2). -/
def treeUpdate (H : Bytes → Bytes) (B : Nat) (store : MapStore)
    (leaves : List MNode) (leafCount : Nat) : UpdateResult :=
  let target := rootLevel B leafCount
  let dirty := leaves.map (fun n => (n.pos.2, n.data))
  let (bs, top) := upLoop H B store (target + 1) 0 dirty target
  ⟨leaves, bs, leafCount, top.pos.1 + 1, top⟩

/-- `MapStore.CommitUpdate`: store all provided nodes and update the
leaf-count and height metadata atomically. -/
def MapStore.commitUpdate (s : MapStore) (u : UpdateResult) : MapStore :=
  ⟨(u.leaves ++ u.branches).foldl (fun ns n => insertNode ns n.pos n.data) s.nodes,
   u.leafCount, u.height⟩

/-- `Tree.Root()`: the node at `(height − 1, 0)`, or none for an empty
tree. -/
def treeRoot (store : MapStore) : Option MNode :=
  if store.height = 0 then none
  else (store.getNode (store.height - 1, 0)).map (fun d => ⟨(store.height - 1, 0), d⟩)

/-- `Tree.Verify(leaves)`: false on empty input, on a node not at level 0,
on a leaf index ≥ leaf_count, or with no stored root; otherwise recompute
the ancestors with store-backed siblings and compare the top with the
stored root. -/
def treeVerify (H : Bytes → Bytes) (B : Nat) (store : MapStore) (nodes : List MNode) : Bool :=
  match nodes with
  | [] => false
  | _ =>
    if nodes.any (fun n => n.pos.1 ≠ 0 || store.leafCount ≤ n.pos.2) then false
    else
      match treeRoot store with
      | none => false
      | some r =>
        let dirty := nodes.map (fun n => (n.pos.2, n.data))
        let (_, top) := upLoop H B store store.height 0 dirty (store.height - 1)
        top.pos == r.pos && top.data == r.data

/-! ## Storage: state store and `VerifyState`

`Storage.VerifyState` and the commit pipeline are under `src/`
(`src/unnamed/part_002`); the `stateStore` helpers they call are modelled
from the spec (§4.3): `state/<key> → value`, `state_merkle_idx/<key> →
tree_index`, `H_state(value) = sha3-256(value)`, tree indexes for new keys
allocated sequentially starting at the previous leaf count. -/

/-- Insert/overwrite in an association list. -/
def insertA (l : List (Bytes × α)) (k : Bytes) (v : α) : List (Bytes × α) :=
  if l.any (fun e => e.1 == k) then l.map (fun e => if e.1 == k then (k, v) else e)
  else l ++ [(k, v)]

/-- A state change `{key, value}` as produced by the executor (the
`prev_*` fields are loaded by the storage layer and do not affect the
written result). -/
structure StateChange where
  key : Bytes
  value : Bytes
  deriving Repr, DecidableEq

/-- The state-relevant storage content: state values, tree indexes, and
the Merkle node store. -/
structure StorageState where
  state : List (Bytes × Bytes)
  merkleIdx : List (Bytes × Nat)
  mstore : MapStore
  deriving Repr, DecidableEq

def StorageState.empty : StorageState := ⟨[], [], MapStore.empty⟩

/-- `stateStore.getState` (a missing value reads as nil bytes). -/
def getState (st : StorageState) (k : Bytes) : Bytes :=
  ((st.state.find? (fun e => e.1 == k)).map Prod.snd).getD []

/-- `stateStore.getMerkleIndex`. -/
def getMerkleIndex (st : StorageState) (k : Bytes) : Option Nat :=
  (st.merkleIdx.find? (fun e => e.1 == k)).map Prod.snd

/-- `stateStore.setNewTreeIndexes`: keep the previous tree index of a key
that already has one, allocate sequential indexes starting at
`prevLeafCount` for new keys; returns the indexed changes and the new
leaf count. -/
def assignIndexes (st : StorageState) (changes : List StateChange) (next : Nat) :
    List (StateChange × Nat) × Nat :=
  match changes with
  | [] => ([], next)
  | c :: rest =>
    match getMerkleIndex st c.key with
    | some i =>
      let (l, n) := assignIndexes st rest next
      ((c, i) :: l, n)
    | none =>
      let (l, n) := assignIndexes st rest (next + 1)
      ((c, next) :: l, n)

/-- `stateStore.computeUpdatedTreeNodes`: leaf node `(0, tree_index)` with
data `H_state(value)`. -/
def updatedTreeNodes (H : Bytes → Bytes) (indexed : List (StateChange × Nat)) : List MNode :=
  indexed.map (fun ci => ⟨(0, ci.2), H ci.1.value⟩)

/-- The state+merkle part of `Storage.Commit`
(`computeMerkleUpdate` + `writeStateMerkleTree`, src/unnamed/part_002):
skipped entirely when there are no state changes; otherwise allocate tree
indexes, recompute the Merkle update, and write state values, tree
indexes, and Merkle nodes. -/
def commitState (H : Bytes → Bytes) (B : Nat) (st : StorageState)
    (changes : List StateChange) : StorageState :=
  if changes.isEmpty then st
  else
    let (indexed, leafCount) := assignIndexes st changes st.mstore.leafCount
    let nodes := updatedTreeNodes H indexed
    let upd := treeUpdate H B st.mstore nodes leafCount
    ⟨indexed.foldl (fun m ci => insertA m ci.1.key ci.1.value) st.state,
     indexed.foldl (fun m ci => insertA m ci.1.key ci.2) st.merkleIdx,
     st.mstore.commitUpdate upd⟩

/-- Errors of `Storage.VerifyState`. -/
inductive StorageErr where
  | stateNotFound
  | merkleVerifyFailed
  deriving Repr, DecidableEq

/-- `Storage.VerifyState` (src/unnamed/part_002:147-164): read the value
and its tree index (error if the key has none), build the leaf node
`{position = (0, tree_index), data = H_state(value)}`, and run the Merkle
tree's verify on that single node; return the value exactly when
verification succeeds. -/
def verifyState (H : Bytes → Bytes) (B : Nat) (st : StorageState) (key : Bytes) :
    Except StorageErr Bytes :=
  let value := getState st key
  match getMerkleIndex st key with
  | none => .error .stateNotFound
  | some idx =>
    if treeVerify H B st.mstore [⟨(0, idx), H value⟩] then .ok value
    else .error .merkleVerifyFailed

/-- External tampering with `state/<key>` (overwriting the stored value
bytes behind the Merkle tree's back). -/
def tamperState (st : StorageState) (k v : Bytes) : StorageState :=
  ⟨insertA st.state k v, st.merkleIdx, st.mstore⟩

/-! ## Storage: the `Commit` write pipeline (src/unnamed/part_002)

`Storage.commit`/`writeCommitData` sequence a pure Merkle computation and
four database batches.  The embedding keeps the batches abstract — a
batch either succeeds or fails with an error code, given by `fail` — and
records the performed actions in order. -/

/-- The four database batches of `writeCommitData`, in source order. -/
inductive WStep where
  | chainData
  | blockCommit
  | stateMerkle
  | blockHeight
  deriving Repr, DecidableEq

/-- An action performed by `Storage.commit`: the pure Merkle-update
computation (no storage write), or one of the database batches. -/
inductive CEvent where
  | computeMerkle
  | write (w : WStep)
  deriving Repr, DecidableEq

/-- Attempt one database batch: on failure the commit stops with that
error and the batch performs no write. -/
def attemptW (fail : WStep → Option Nat) (w : WStep) (acc : List CEvent)
    (k : List CEvent → Option Nat × List CEvent) : Option Nat × List CEvent :=
  match fail w with
  | some e => (some e, acc)
  | none => k (acc ++ [.write w])

/-- `Storage.commit` (src/unnamed/part_002:174-249): the pure Merkle
computation first (only when there are state changes), then
`writeChainData`, `writeBlockCommit`, `writeStateMerkleTree` (which
returns immediately when there are no state changes), and finally
`setCommitedBlockHeight`; each failing step aborts the rest. -/
def storageCommit (hasChanges : Bool) (fail : WStep → Option Nat) :
    Option Nat × List CEvent :=
  let acc0 : List CEvent := if hasChanges then [.computeMerkle] else []
  attemptW fail .chainData acc0 (fun a1 =>
    attemptW fail .blockCommit a1 (fun a2 =>
      if hasChanges then
        attemptW fail .stateMerkle a2 (fun a3 =>
          attemptW fail .blockHeight a3 (fun a4 => (none, a4)))
      else
        attemptW fail .blockHeight a2 (fun a4 => (none, a4))))

/-- The complete, successful action sequence of `Storage.commit`. -/
def commitFullTrace (hasChanges : Bool) : List CEvent :=
  (if hasChanges then [.computeMerkle] else []) ++
    [.write .chainData, .write .blockCommit] ++
    (if hasChanges then [.write .stateMerkle] else []) ++ [.write .blockHeight]

/-! ## Canonical serialization

Modelled from the spec: the protobuf schema (`core_pb`) is not under
`src/`; §4.1 only requires one stable schema-based encoding.  Fields are
encoded sequentially: byte strings with a length prefix, integers as a
single symbol (a sign tag for `int64`), options with a presence tag,
lists with a count prefix. -/

def encBytes (b : Bytes) : Bytes := b.length :: b

def decBytes : Bytes → Option (Bytes × Bytes)
  | [] => none
  | n :: rest => if n ≤ rest.length then some (rest.take n, rest.drop n) else none

def encNat (n : Nat) : Bytes := [n]

def decNat : Bytes → Option (Nat × Bytes)
  | [] => none
  | n :: rest => some (n, rest)

def encInt (i : Int) : Bytes := if i < 0 then [1, (-i).toNat] else [0, i.toNat]

def decInt : Bytes → Option (Int × Bytes)
  | 0 :: m :: rest => some ((m : Int), rest)
  | 1 :: m :: rest => some (-(m : Int), rest)
  | _ => none

def encOpt (enc : α → Bytes) : Option α → Bytes
  | none => [0]
  | some x => 1 :: enc x

def decOpt (dec : Bytes → Option (α × Bytes)) : Bytes → Option (Option α × Bytes)
  | 0 :: rest => some (none, rest)
  | 1 :: rest => (dec rest).map (fun xr => (some xr.1, xr.2))
  | _ => none

def encList (enc : α → Bytes) (l : List α) : Bytes :=
  l.length :: (l.map enc).flatten

def decListAux (dec : Bytes → Option (α × Bytes)) : Nat → Bytes → Option (List α × Bytes)
  | 0, rest => some ([], rest)
  | n + 1, rest => do
    let (x, rest1) ← dec rest
    let (xs, rest2) ← decListAux dec n rest1
    some (x :: xs, rest2)

def decList (dec : Bytes → Option (α × Bytes)) : Bytes → Option (List α × Bytes)
  | [] => none
  | n :: rest => decListAux dec n rest

def encSig (s : SigData) : Bytes := encBytes s.pubKey ++ encBytes s.value

def decSig (b : Bytes) : Option (SigData × Bytes) := do
  let (pk, b1) ← decBytes b
  let (v, b2) ← decBytes b1
  some (⟨pk, v⟩, b2)

def encQC (q : QCData) : Bytes :=
  encBytes q.blockHash ++ encList (encOpt encSig) q.signatures

def decQC (b : Bytes) : Option (QCData × Bytes) := do
  let (bh, b1) ← decBytes b
  let (sigs, b2) ← decList (decOpt decSig) b1
  some (⟨bh, sigs⟩, b2)

/-- `Transaction.Marshal`. -/
def marshalTx (d : TxData) : Bytes :=
  encInt d.nonce ++ encBytes d.sender ++ encBytes d.codeAddr ++
    encBytes d.input ++ encBytes d.hash ++ encBytes d.signature

def decTx (b : Bytes) : Option (TxData × Bytes) := do
  let (n, b1) ← decInt b
  let (s, b2) ← decBytes b1
  let (c, b3) ← decBytes b2
  let (i, b4) ← decBytes b3
  let (h, b5) ← decBytes b4
  let (sg, b6) ← decBytes b5
  some (⟨n, s, c, i, h, sg⟩, b6)

/-- `Transaction.Unmarshal`. -/
def unmarshalTx (b : Bytes) : Option TxData :=
  match decTx b with
  | some (d, []) => some d
  | _ => none

/-- `Block.Marshal`. -/
def marshalBlock (d : BlockData) : Bytes :=
  encNat d.height ++ encBytes d.parentHash ++ encBytes d.proposer ++
    encOpt encQC d.quorumCert ++ encNat d.execHeight ++ encBytes d.stateRoot ++
    encList encBytes d.transactions ++ encBytes d.hash ++ encBytes d.signature

def decBlock (b : Bytes) : Option (BlockData × Bytes) := do
  let (h, b1) ← decNat b
  let (ph, b2) ← decBytes b1
  let (pr, b3) ← decBytes b2
  let (qc, b4) ← decOpt decQC b3
  let (eh, b5) ← decNat b4
  let (sr, b6) ← decBytes b5
  let (txs, b7) ← decList decBytes b6
  let (hh, b8) ← decBytes b7
  let (sg, b9) ← decBytes b8
  some (⟨h, ph, pr, qc, eh, sr, txs, hh, sg⟩, b9)

/-- `UnmarshalBlock`. -/
def unmarshalBlock (b : Bytes) : Option BlockData :=
  match decBlock b with
  | some (d, []) => some d
  | _ => none

/-- `core_pb.TxCommit` data: `{tx_hash, block_hash, block_height, elapsed,
error_string}` (the error string modelled as bytes). -/
structure TxCommitData where
  hash : Bytes
  blockHash : Bytes
  blockHeight : Nat
  elapsed : Int
  error : Bytes
  deriving Repr, DecidableEq

/-- `TxCommit.Marshal`. -/
def marshalTxCommit (d : TxCommitData) : Bytes :=
  encBytes d.hash ++ encBytes d.blockHash ++ encNat d.blockHeight ++
    encInt d.elapsed ++ encBytes d.error

def decTxCommit (b : Bytes) : Option (TxCommitData × Bytes) := do
  let (h, b1) ← decBytes b
  let (bh, b2) ← decBytes b1
  let (ht, b3) ← decNat b2
  let (el, b4) ← decInt b3
  let (er, b5) ← decBytes b4
  some (⟨h, bh, ht, el, er⟩, b5)

/-- `TxCommit.Unmarshal`. -/
def unmarshalTxCommit (b : Bytes) : Option TxCommitData :=
  match decTxCommit b with
  | some (d, []) => some d
  | _ => none

/-- `TxList.Marshal`: the wrapped list of transaction data records. -/
def marshalTxList (l : List TxData) : Bytes := encList marshalTx l

/-- `TxList.Unmarshal`. -/
def unmarshalTxList (b : Bytes) : Option (List TxData) :=
  match decList decTx b with
  | some (l, []) => some l
  | _ => none

/-! ## Spec-side reference definitions for the validation order -/

/-- Return the error of the first failing check in the list, `ok` when all
pass. -/
def firstFailure : List (Bool × CoreError) → VResult
  | [] => .ok
  | (b, e) :: rest => if b then firstFailure rest else .error e

/-- Block validation in the order the spec claim states it: non-nil data,
recomputed hash, signature, then embedded QC and proposer membership.
This definition follows the claim's words and is compared against the
source's `blockValidate`. -/
def blockValidateClaim (H : Bytes → Bytes) (vs : ValidatorStore) (blk : Block) : VResult :=
  match blk.data with
  | none => .error .nilBlock
  | some d =>
    if blockSum H d ≠ d.hash then .error .invalidBlockHash
    else
      match newSignature (some ⟨d.proposer, d.signature⟩) with
      | .error e => .error e
      | .ok sig =>
        if !(sigVerify sig d.hash) then .error .invalidSig
        else
          match qcValidate vs d.quorumCert with
          | .error e => .error e
          | .ok _ =>
            if !(vs.isValidator sig.pubKey) then .error .invalidValidator
            else .ok

/-- Block validation in the amended order: non-nil data, embedded QC,
recomputed hash, proposer in the validator set, signature verification —
with a panic (not an error return) when the proposer key bytes do not
parse, since the parsed signature is dereferenced before its error is
inspected.  Written from the amended claim's words, to be proved equal to
the source's `blockValidate`. -/
def blockValidateAmended (H : Bytes → Bytes) (vs : ValidatorStore) (blk : Block) : VResult :=
  match blk.data with
  | none => .error .nilBlock
  | some d =>
    match qcValidate vs d.quorumCert with
    | .error e => .error e
    | .ok _ =>
      match newSignature (some ⟨d.proposer, d.signature⟩) with
      | .error _ =>
        if blockSum H d == d.hash then .panic else .error .invalidBlockHash
      | .ok sig =>
        firstFailure
          [(blockSum H d == d.hash, .invalidBlockHash),
           (vs.isValidator sig.pubKey, .invalidValidator),
           (sigVerify sig d.hash, .invalidSig)]

/-- Transaction validation written from the claim's words: non-nil data,
recomputed hash, then the signature (a parse failure returns that error,
otherwise verification is checked). -/
def txValidateClaim (H : Bytes → Bytes) (tx : Transaction) : VResult :=
  match tx.data with
  | none => .error .nilTx
  | some d =>
    match newSignature (some ⟨d.sender, d.signature⟩) with
    | .error e =>
      if txSum H d == d.hash then .error e else .error .invalidTxHash
    | .ok sig =>
      firstFailure
        [(txSum H d == d.hash, .invalidTxHash),
         (sigVerify sig d.hash, .invalidSig)]

/-- Set the hash field of a block to its recomputed sum (the sum does not
depend on the hash field, so the result carries a correct hash). -/
def blockWithSum (H : Bytes → Bytes) (d : BlockData) : BlockData :=
  { d with hash := blockSum H d }

/-! ## Concrete scenarios of the Merkle tests (`TestTree_Update`,
`TestTree_Verify`) and of a state commit -/

/-- S2: leaves `0..6` with data `[i]`. -/
def s2Leaves : List MNode := (List.range 7).map (fun i => ⟨(0, i), [i]⟩)

/-- The store after the S2 update (`B = 3`, 7 leaves) is committed. -/
def s2Store (H : Bytes → Bytes) : MapStore :=
  MapStore.empty.commitUpdate (treeUpdate H 3 MapStore.empty s2Leaves 7)

/-- S3: update indices `{2,5,7,8,9}` to data `[1]`. -/
def s3Updates : List MNode :=
  [⟨(0, 2), [1]⟩, ⟨(0, 5), [1]⟩, ⟨(0, 7), [1]⟩, ⟨(0, 8), [1]⟩, ⟨(0, 9), [1]⟩]

/-- The store after the S3 update (new leaf count 10) is committed on top
of S2. -/
def s3Store (H : Bytes → Bytes) : MapStore :=
  (s2Store H).commitUpdate (treeUpdate H 3 (s2Store H) s3Updates 10)

/-- A concrete batch of state changes for the commit/verify scenario. -/
def scChanges : List StateChange := [⟨[1], [10]⟩, ⟨[2], [20]⟩, ⟨[3], [30]⟩]

/-- Storage after committing `scChanges` into empty storage. -/
def scStore : StorageState := commitState modelHash 3 StorageState.empty scChanges

/-! # Theorems -/

theorem modelHash_injective : Function.Injective modelHash := by
  intro a b h
  simpa [modelHash] using h

/-- `ndiv` agrees with `⌊·/·⌋` for positive divisors. -/
theorem ndiv_eq_div (a b : Nat) (hb : 0 < b) : ndiv a b = a / b := by
  suffices aux : ∀ fuel a, a ≤ fuel → ndivAux fuel a b = a / b by
    exact aux a a le_rfl
  intro fuel
  induction fuel with
  | zero =>
    intro a ha
    have h0 : a = 0 := Nat.le_zero.mp ha
    subst h0
    simp [ndivAux]
  | succ n ih =>
    intro a ha
    rw [ndivAux]
    by_cases hlt : a < b
    · simp [hlt, Nat.div_eq_of_lt hlt]
    · rw [if_neg hlt, ih (a - b) (by omega), Nat.div_eq a b]
      simp [hb, Nat.not_lt.mp hlt, Nat.add_comm]

theorem foldl_hwrite (l : List Bytes) (acc : Bytes) :
    l.foldl hwrite acc = acc ++ l.flatten := by
  induction l generalizing acc with
  | nil => simp [hwrite]
  | cons x xs ih => simp [hwrite, ih, List.append_assoc]

/-- C1: `Block.Sum` is the digest of
`be(height) ∥ parent_hash ∥ proposer ∥ qc.block_hash ∥ be(exec_height) ∥
state_root ∥ concat(tx_hashes)` and `Transaction.Sum` the digest of
`be(nonce) ∥ sender ∥ code_addr ∥ input`; both depend on exactly those
fields (in particular not on the stored hash and signature fields). -/
theorem sum_canonical_preimage :
    (∀ (H : Bytes → Bytes) (h : Nat) (ph pr : Bytes) (q : QCData) (eh : Nat)
        (sr : Bytes) (txs : List Bytes) (hh sg : Bytes),
      blockSum H ⟨h, ph, pr, some q, eh, sr, txs, hh, sg⟩ =
        H (be8 h ++ ph ++ pr ++ q.blockHash ++ be8 eh ++ sr ++ txs.flatten)) ∧
    (∀ (H : Bytes → Bytes) (d : BlockData) (hh sg : Bytes),
      blockSum H { d with hash := hh, signature := sg } = blockSum H d) ∧
    (∀ (H : Bytes → Bytes) (n : Int) (s c i hh sg : Bytes),
      txSum H ⟨n, s, c, i, hh, sg⟩ = H (be8Int n ++ s ++ c ++ i)) ∧
    (∀ (H : Bytes → Bytes) (d : TxData) (hh sg : Bytes),
      txSum H { d with hash := hh, signature := sg } = txSum H d) := by
  refine ⟨?_, ?_, ?_, ?_⟩
  · intro H h ph pr q eh sr txs hh sg
    simp [blockSum, hwrite, foldl_hwrite, List.append_assoc]
  · intro H d hh sg
    rfl
  · intro H n s c i hh sg
    simp [txSum, hwrite, List.append_assoc]
  · intro H d hh sg
    rfl

/-- C10: `Block.Sum` on a block with a nil embedded QC skips the QC
contribution, so it agrees with the sum of the field-identical block whose
QC carries an empty `block_hash`. -/
theorem blockSum_nilQC_emptyHash_agree :
    ∀ (H : Bytes → Bytes) (h : Nat) (ph pr : Bytes) (eh : Nat) (sr : Bytes)
      (txs : List Bytes) (hh sg : Bytes) (sigs : List (Option SigData)),
      blockSum H ⟨h, ph, pr, none, eh, sr, txs, hh, sg⟩ =
        blockSum H ⟨h, ph, pr, some ⟨[], sigs⟩, eh, sr, txs, hh, sg⟩ := by
  intro H h ph pr eh sr txs hh sg sigs
  simp [blockSum, hwrite]

/-- C9: at a block with non-nil data, a validating embedded QC, a correct
stored hash, and proposer bytes that are not a well-formed public key,
`Block.Validate` dereferences the nil result of the failed `newSignature`
(inside `vs.IsValidator(sig.PublicKey())`) before inspecting the error:
a nil-pointer panic, not an error return. -/
theorem blockValidate_malformed_proposer_panics :
    qcValidate ⟨[]⟩ (some ⟨[], []⟩) = .ok () ∧
    newSignature (some ⟨[], []⟩) = .error .badPubKey ∧
    blockValidate modelHash ⟨[]⟩
      ⟨some ⟨0, [], [], some ⟨[], []⟩, 0, [], [], List.replicate 17 0, []⟩⟩ = .panic := by
  refine ⟨by decide, by decide, ?_⟩
  decide

/-- C5 counterexample: `Block.Validate` does not perform its checks in
the claimed order.  At a block whose stored hash is wrong *and* whose
embedded QC is nil, the code returns the QC validation error, while the
claimed order (hash before QC) yields `ErrInvalidBlockHash`; at a block
with valid QC and hash whose proposer is outside the validator set and
whose signature is invalid, the code returns `ErrInvalidValidator`, while
the claimed order (signature before proposer) yields `ErrInvalidSig`. -/
theorem blockValidate_order_counterexample :
    blockValidate modelHash ⟨[]⟩ ⟨some ⟨0, [], [], none, 0, [], [], [9], []⟩⟩ =
        .error .nilQC ∧
    blockValidateClaim modelHash ⟨[]⟩ ⟨some ⟨0, [], [], none, 0, [], [], [9], []⟩⟩ =
        .error .invalidBlockHash ∧
    blockValidate modelHash ⟨[]⟩
        ⟨some (blockWithSum modelHash ⟨0, [], pubOf 1, some ⟨[], []⟩, 0, [], [], [], []⟩)⟩ =
        .error .invalidValidator ∧
    blockValidateClaim modelHash ⟨[]⟩
        ⟨some (blockWithSum modelHash ⟨0, [], pubOf 1, some ⟨[], []⟩, 0, [], [], [], []⟩)⟩ =
        .error .invalidSig := by
  refine ⟨by decide, by decide, by decide, by decide⟩

/-- C5 (amended): `Block.Validate` checks, in this order: non-nil data,
embedded QC validity, recomputed hash, proposer in the validator set, and
signature verification — panicking (instead of returning an error) when
the proposer bytes do not parse as a public key; `Transaction.Validate`
checks non-nil data, recomputed hash, then the signature.  Each returns
nil exactly when all checks pass and otherwise the first failing check's
error. -/
theorem validate_first_failing_check :
    (∀ (H : Bytes → Bytes) (vs : ValidatorStore) (blk : Block),
      blockValidate H vs blk = blockValidateAmended H vs blk) ∧
    (∀ (H : Bytes → Bytes) (tx : Transaction),
      txValidate H tx = txValidateClaim H tx) := by
  constructor
  · intro H vs blk
    rcases blk with ⟨_ | d⟩
    · rfl
    · simp only [blockValidate, blockValidateAmended]
      cases qcValidate vs d.quorumCert with
      | error e => rfl
      | ok u =>
        by_cases hh : blockSum H d = d.hash
        · cases hs : newSignature (some ⟨d.proposer, d.signature⟩) with
          | error e => simp [hh, firstFailure]
          | ok sig =>
            by_cases hv : vs.isValidator sig.pubKey = true
            · by_cases hg : sigVerify sig d.hash = true
              · simp [hh, hv, hg, firstFailure]
              · simp [hh, hv, hg, firstFailure]
            · simp [hh, hv, firstFailure]
        · cases hs : newSignature (some ⟨d.proposer, d.signature⟩) with
          | error e => simp [hh, firstFailure]
          | ok sig => simp [hh, firstFailure]
  · intro H tx
    rcases tx with ⟨_ | d⟩
    · rfl
    · simp only [txValidate, txValidateClaim]
      by_cases hh : txSum H d = d.hash
      · cases hs : newSignature (some ⟨d.sender, d.signature⟩) with
        | error e => simp [hh, firstFailure]
        | ok sig =>
          by_cases hg : sigVerify sig d.hash = true
          · simp [hh, hg, firstFailure]
          · simp [hh, hg, firstFailure]
      · cases hs : newSignature (some ⟨d.sender, d.signature⟩) with
        | error e => simp [hh, firstFailure]
        | ok sig => simp [hh, firstFailure]

/-- C3: `Storage.Commit` performs the pure Merkle computation (only when
there are state changes, and without touching storage), then the chain
batch, the block-commit batch, the state+merkle batch (skipped without
state changes), and the committed block height last; the performed
actions always form a prefix of this order, a failing step stops the
commit with its error, and the block height is written exactly when every
other step has succeeded. -/
theorem storageCommit_write_order :
    (∀ (hc : Bool) (fail : WStep → Option Nat),
      (storageCommit hc fail).2 =
        (commitFullTrace hc).take (storageCommit hc fail).2.length) ∧
    (∀ (hc : Bool) (fail : WStep → Option Nat),
      ((storageCommit hc fail).1 = none ↔
        (storageCommit hc fail).2 = commitFullTrace hc)) ∧
    (∀ (hc : Bool) (fail : WStep → Option Nat),
      (CEvent.computeMerkle ∈ (storageCommit hc fail).2 ↔ hc = true)) ∧
    (∀ fail : WStep → Option Nat,
      (storageCommit true fail).2.head? = some CEvent.computeMerkle) ∧
    (∀ (hc : Bool) (fail : WStep → Option Nat),
      (CEvent.write WStep.blockHeight ∈ (storageCommit hc fail).2 ↔
        (storageCommit hc fail).1 = none)) ∧
    (∀ (hc : Bool) (fail : WStep → Option Nat),
      (CEvent.write WStep.stateMerkle ∈ (storageCommit hc fail).2 ↔
        (hc = true ∧ fail WStep.chainData = none ∧ fail WStep.blockCommit = none ∧
          fail WStep.stateMerkle = none))) ∧
    (∀ fail : WStep → Option Nat,
      ((storageCommit true fail).1 = none ↔
        (fail WStep.chainData = none ∧ fail WStep.blockCommit = none ∧
          fail WStep.stateMerkle = none ∧ fail WStep.blockHeight = none))) ∧
    (∀ fail : WStep → Option Nat,
      ((storageCommit false fail).1 = none ↔
        (fail WStep.chainData = none ∧ fail WStep.blockCommit = none ∧
          fail WStep.blockHeight = none))) ∧
    (∀ (hc : Bool) (fail : WStep → Option Nat) (e : Nat),
      (storageCommit hc fail).1 = some e →
        (fail WStep.chainData = some e ∨ fail WStep.blockCommit = some e ∨
          fail WStep.stateMerkle = some e ∨ fail WStep.blockHeight = some e)) := by
  refine ⟨?_, ?_, ?_, ?_, ?_, ?_, ?_, ?_, ?_⟩
  · intro hc fail
    cases hc <;>
      cases h1 : fail WStep.chainData <;>
      cases h2 : fail WStep.blockCommit <;>
      cases h3 : fail WStep.stateMerkle <;>
      cases h4 : fail WStep.blockHeight <;>
      simp [storageCommit, attemptW, commitFullTrace, h1, h2, h3, h4]
  · intro hc fail
    cases hc <;>
      cases h1 : fail WStep.chainData <;>
      cases h2 : fail WStep.blockCommit <;>
      cases h3 : fail WStep.stateMerkle <;>
      cases h4 : fail WStep.blockHeight <;>
      simp [storageCommit, attemptW, commitFullTrace, h1, h2, h3, h4]
  · intro hc fail
    cases hc <;>
      cases h1 : fail WStep.chainData <;>
      cases h2 : fail WStep.blockCommit <;>
      cases h3 : fail WStep.stateMerkle <;>
      cases h4 : fail WStep.blockHeight <;>
      simp [storageCommit, attemptW, h1, h2, h3, h4]
  · intro fail
    cases h1 : fail WStep.chainData <;>
      cases h2 : fail WStep.blockCommit <;>
      cases h3 : fail WStep.stateMerkle <;>
      cases h4 : fail WStep.blockHeight <;>
      simp [storageCommit, attemptW, h1, h2, h3, h4]
  · intro hc fail
    cases hc <;>
      cases h1 : fail WStep.chainData <;>
      cases h2 : fail WStep.blockCommit <;>
      cases h3 : fail WStep.stateMerkle <;>
      cases h4 : fail WStep.blockHeight <;>
      simp [storageCommit, attemptW, h1, h2, h3, h4]
  · intro hc fail
    cases hc <;>
      cases h1 : fail WStep.chainData <;>
      cases h2 : fail WStep.blockCommit <;>
      cases h3 : fail WStep.stateMerkle <;>
      cases h4 : fail WStep.blockHeight <;>
      simp [storageCommit, attemptW, h1, h2, h3, h4]
  · intro fail
    cases h1 : fail WStep.chainData <;>
      cases h2 : fail WStep.blockCommit <;>
      cases h3 : fail WStep.stateMerkle <;>
      cases h4 : fail WStep.blockHeight <;>
      simp [storageCommit, attemptW, h1, h2, h3, h4]
  · intro fail
    cases h1 : fail WStep.chainData <;>
      cases h2 : fail WStep.blockCommit <;>
      cases h4 : fail WStep.blockHeight <;>
      simp [storageCommit, attemptW, h1, h2, h4]
  · intro hc fail e
    cases hc <;>
      cases h1 : fail WStep.chainData <;>
      cases h2 : fail WStep.blockCommit <;>
      cases h3 : fail WStep.stateMerkle <;>
      cases h4 : fail WStep.blockHeight <;>
      simp [storageCommit, attemptW, h1, h2, h3, h4] <;>
      tauto

theorem newSignature_ok_iff (s : Option SigData) (sd : SigData) :
    newSignature s = .ok sd ↔ s = some sd ∧ sd.pubKey.length = pubKeySize := by
  cases s with
  | none => simp [newSignature]
  | some x =>
    by_cases hw : x.pubKey.length = pubKeySize
    · simp only [newSignature, if_pos hw, Except.ok.injEq, Option.some.injEq]
      constructor
      · intro h
        exact ⟨h, h ▸ hw⟩
      · intro h
        exact h.1
    · simp only [newSignature, if_neg hw, Option.some.injEq]
      constructor
      · intro h
        simp at h
      · rintro ⟨rfl, h⟩
        exact absurd h hw

theorem collectSigs_ok_iff (l : List (Option SigData)) (sds : List SigData) :
    collectSigs l = .ok sds ↔
      (l = sds.map some ∧ ∀ s ∈ sds, s.pubKey.length = pubKeySize) := by
  induction l generalizing sds with
  | nil =>
    cases sds with
    | nil => simp [collectSigs]
    | cons a as => simp [collectSigs]
  | cons s rest ih =>
    simp only [collectSigs]
    cases hns : newSignature s with
    | error e =>
      constructor
      · intro h
        simp at h
      · rintro ⟨h1, h2⟩
        cases sds with
        | nil => simp at h1
        | cons a as =>
          simp only [List.map_cons, List.cons.injEq] at h1
          have ha := h2 a (by simp)
          rw [(by exact h1.1 : s = some a)] at hns
          rw [(newSignature_ok_iff (some a) a).mpr ⟨rfl, ha⟩] at hns
          simp at hns
    | ok sd =>
      obtain ⟨hs, hw⟩ := (newSignature_ok_iff s sd).mp hns
      subst hs
      cases hcs : collectSigs rest with
      | error e =>
        constructor
        · intro h
          simp at h
        · rintro ⟨h1, h2⟩
          cases sds with
          | nil => simp at h1
          | cons a as =>
            simp only [List.map_cons, List.cons.injEq, Option.some.injEq] at h1
            have : collectSigs rest = .ok as :=
              (ih as).mpr ⟨h1.2, fun x hx => h2 x (by simp [hx])⟩
            rw [hcs] at this
            simp at this
      | ok tail =>
        obtain ⟨htail, hwtail⟩ := (ih tail).mp hcs
        constructor
        · intro h
          simp only [Except.ok.injEq] at h
          subst h
          refine ⟨by simp [htail], ?_⟩
          intro x hx
          rcases List.mem_cons.mp hx with hx | hx
          · exact hx ▸ hw
          · exact hwtail x hx
        · rintro ⟨h1, h2⟩
          cases sds with
          | nil => simp at h1
          | cons a as =>
            simp only [List.map_cons, List.cons.injEq, Option.some.injEq] at h1
            obtain ⟨rfl, h1r⟩ := h1
            have : collectSigs rest = .ok as :=
              (ih as).mpr ⟨h1r, fun x hx => h2 x (by simp [hx])⟩
            rw [hcs] at this
            simp only [Except.ok.injEq] at this
            simp [this]

theorem hasDupKeys_eq_false_iff (l : List Bytes) : hasDupKeys l = false ↔ l.Nodup := by
  induction l with
  | nil => simp [hasDupKeys]
  | cons k rest ih =>
    simp [hasDupKeys, ih, List.nodup_cons]

/-- C2: `QuorumCert.Validate` succeeds exactly on a QC whose signatures
are all non-nil with well-formed keys, whose signer keys are pairwise
distinct validators, which verify over `block_hash`, and whose count
reaches the quorum `Q = N − ⌊(N−1)/3⌋`; in particular `Q = 3` for
`N = 4`.  Fewer than `Q` signatures, a duplicate signer, a signer outside
the validator set, a nil signature, or a malformed signature all fail. -/
theorem qcValidate_threshold :
    (∀ (vs : ValidatorStore) (d : QCData),
      qcValidate vs (some d) = .ok () ↔
        ∃ sds : List SigData,
          d.signatures = sds.map some ∧
          quorum vs.count ≤ sds.length ∧
          (sds.map SigData.pubKey).Nodup ∧
          ∀ s ∈ sds, s.pubKey.length = pubKeySize ∧
            vs.isValidator s.pubKey = true ∧ sigVerify s d.blockHash = true) ∧
    quorum 4 = 3 := by
  constructor
  · intro vs d
    constructor
    · intro h
      simp only [qcValidate] at h
      cases hcs : collectSigs d.signatures with
      | error e =>
        simp only [hcs] at h
        simp at h
      | ok sds =>
        simp only [hcs] at h
        obtain ⟨hsigs, hwf⟩ := (collectSigs_ok_iff _ _).mp hcs
        split_ifs at h with h1 h2 h3 h4
        refine ⟨sds, hsigs, by omega, (hasDupKeys_eq_false_iff _).mp (by simpa using h2), ?_⟩
        intro s hs
        have h3' : ∀ x ∈ sds, vs.isValidator x.pubKey = true := by simpa using h3
        have h4' : ∀ x ∈ sds, sigVerify x d.blockHash = true := by simpa using h4
        exact ⟨hwf s hs, h3' s hs, h4' s hs⟩
    · rintro ⟨sds, hsigs, hq, hnd, hall⟩
      have hcs : collectSigs d.signatures = .ok sds :=
        (collectSigs_ok_iff _ _).mpr ⟨hsigs, fun s hs => (hall s hs).1⟩
      simp only [qcValidate, hcs]
      rw [if_neg (by omega)]
      rw [if_neg (by simp [(hasDupKeys_eq_false_iff _).mpr hnd])]
      rw [if_neg (by
        simp only [Bool.not_eq_true, List.any_eq_false]
        intro s hs
        simp [(hall s hs).2.1])]
      rw [if_neg (by
        simp only [Bool.not_eq_true, List.any_eq_false]
        intro s hs
        simp [(hall s hs).2.2])]
  · rfl

theorem decBytes_enc (b r : Bytes) : decBytes (encBytes b ++ r) = some (b, r) := by
  have h1 : encBytes b ++ r = b.length :: (b ++ r) := by simp [encBytes]
  rw [h1, decBytes]
  rw [if_pos (by simp)]
  rw [List.take_left, List.drop_left]

theorem decNat_enc (n : Nat) (r : Bytes) : decNat (encNat n ++ r) = some (n, r) := by
  simp [encNat, decNat]

theorem decInt_enc (i : Int) (r : Bytes) : decInt (encInt i ++ r) = some (i, r) := by
  by_cases h : i < 0
  · have h1 : encInt i ++ r = 1 :: (-i).toNat :: r := by simp [encInt, h]
    rw [h1, decInt]
    simp [Int.toNat_of_nonneg (by omega : (0 : Int) ≤ -i)]
  · have h1 : encInt i ++ r = 0 :: i.toNat :: r := by simp [encInt, h]
    rw [h1, decInt]
    simp [Int.toNat_of_nonneg (by omega : (0 : Int) ≤ i)]

theorem decOpt_enc (enc : α → Bytes) (dec : Bytes → Option (α × Bytes))
    (hd : ∀ x r, dec (enc x ++ r) = some (x, r)) (o : Option α) (r : Bytes) :
    decOpt dec (encOpt enc o ++ r) = some (o, r) := by
  cases o with
  | none => simp [encOpt, decOpt]
  | some x =>
    have h1 : encOpt enc (some x) ++ r = 1 :: (enc x ++ r) := by simp [encOpt]
    rw [h1, decOpt, hd]
    rfl

theorem decListAux_enc (enc : α → Bytes) (dec : Bytes → Option (α × Bytes))
    (hd : ∀ x r, dec (enc x ++ r) = some (x, r)) (l : List α) (r : Bytes) :
    decListAux dec l.length ((l.map enc).flatten ++ r) = some (l, r) := by
  induction l generalizing r with
  | nil => simp [decListAux]
  | cons x xs ih =>
    have h1 : ((x :: xs).map enc).flatten ++ r = enc x ++ ((xs.map enc).flatten ++ r) := by
      simp
    rw [List.length_cons, h1, decListAux, hd]
    simp [ih]

theorem decList_enc (enc : α → Bytes) (dec : Bytes → Option (α × Bytes))
    (hd : ∀ x r, dec (enc x ++ r) = some (x, r)) (l : List α) (r : Bytes) :
    decList dec (encList enc l ++ r) = some (l, r) := by
  have h1 : encList enc l ++ r = l.length :: ((l.map enc).flatten ++ r) := by
    simp [encList]
  rw [h1, decList, decListAux_enc enc dec hd]

theorem decSig_enc (s : SigData) (r : Bytes) : decSig (encSig s ++ r) = some (s, r) := by
  rw [encSig, decSig, List.append_assoc, decBytes_enc]
  simp [decBytes_enc]

theorem decQC_enc (q : QCData) (r : Bytes) : decQC (encQC q ++ r) = some (q, r) := by
  rw [encQC, decQC, List.append_assoc, decBytes_enc]
  simp [decList_enc (encOpt encSig) (decOpt decSig) (decOpt_enc encSig decSig decSig_enc)]

theorem decTx_enc (d : TxData) (r : Bytes) : decTx (marshalTx d ++ r) = some (d, r) := by
  rw [marshalTx, decTx]
  simp only [List.append_assoc]
  rw [decInt_enc]
  simp [decBytes_enc]

theorem decTxCommit_enc (d : TxCommitData) (r : Bytes) :
    decTxCommit (marshalTxCommit d ++ r) = some (d, r) := by
  rw [marshalTxCommit, decTxCommit]
  simp only [List.append_assoc]
  rw [decBytes_enc]
  simp [decBytes_enc, decNat_enc, decInt_enc]

theorem decBlock_enc (d : BlockData) (r : Bytes) :
    decBlock (marshalBlock d ++ r) = some (d, r) := by
  rw [marshalBlock, decBlock]
  simp only [List.append_assoc]
  rw [decNat_enc]
  simp [decBytes_enc, decNat_enc, decOpt_enc encQC decQC decQC_enc,
    decList_enc encBytes decBytes decBytes_enc]

/-- C8: unmarshalling the bytes produced by marshalling yields the
original value, field for field, for Block, Transaction, TxCommit and
TxList. -/
theorem marshal_roundtrip :
    (∀ d : BlockData, unmarshalBlock (marshalBlock d) = some d) ∧
    (∀ d : TxData, unmarshalTx (marshalTx d) = some d) ∧
    (∀ d : TxCommitData, unmarshalTxCommit (marshalTxCommit d) = some d) ∧
    (∀ l : List TxData, unmarshalTxList (marshalTxList l) = some l) := by
  refine ⟨?_, ?_, ?_, ?_⟩
  · intro d
    have h := decBlock_enc d []
    rw [List.append_nil] at h
    simp [unmarshalBlock, h]
  · intro d
    have h := decTx_enc d []
    rw [List.append_nil] at h
    simp [unmarshalTx, h]
  · intro d
    have h := decTxCommit_enc d []
    rw [List.append_nil] at h
    simp [unmarshalTxCommit, h]
  · intro l
    have h := decList_enc marshalTx decTx decTx_enc l []
    rw [List.append_nil] at h
    simp [unmarshalTxList, marshalTxList, h]

set_option maxRecDepth 100000 in
/-- C6: with branch factor 3 and the tree hash (sha1, modelled by
`modelHash`), updating the empty tree with leaves `0..6` of data `[i]`
and leaf count 7 stores exactly 11 nodes with level-1 nodes `H [0,1,2]`,
`H [3,4,5]`, `H [6]` and root `H(n10 ∥ n11 ∥ n12)`; then updating indices
`{2,5,7,8,9}` to `[1]` with leaf count 10 stores exactly 17 nodes, with
`nn13 = H [1]`, `nn21 = H nn13`, and new root `H(nn20 ∥ nn21)`. -/
theorem merkle_update_s2_s3 :
    ((s2Store modelHash).nodes.length = 11) ∧
    ((s2Store modelHash).getNode (1, 0) = some (modelHash [0, 1, 2])) ∧
    ((s2Store modelHash).getNode (1, 1) = some (modelHash [3, 4, 5])) ∧
    ((s2Store modelHash).getNode (1, 2) = some (modelHash [6])) ∧
    (treeRoot (s2Store modelHash) =
      some ⟨(2, 0), modelHash (modelHash [0, 1, 2] ++ modelHash [3, 4, 5] ++ modelHash [6])⟩) ∧
    ((s3Store modelHash).nodes.length = 17) ∧
    ((s3Store modelHash).getNode (1, 0) = some (modelHash [0, 1, 1])) ∧
    ((s3Store modelHash).getNode (1, 1) = some (modelHash [3, 4, 1])) ∧
    ((s3Store modelHash).getNode (1, 2) = some (modelHash [6, 1, 1])) ∧
    ((s3Store modelHash).getNode (1, 3) = some (modelHash [1])) ∧
    ((s3Store modelHash).getNode (2, 0) =
      some (modelHash (modelHash [0, 1, 1] ++ modelHash [3, 4, 1] ++ modelHash [6, 1, 1]))) ∧
    ((s3Store modelHash).getNode (2, 1) = some (modelHash (modelHash [1]))) ∧
    (treeRoot (s3Store modelHash) =
      some ⟨(3, 0), modelHash
        (modelHash (modelHash [0, 1, 1] ++ modelHash [3, 4, 1] ++ modelHash [6, 1, 1]) ++
          modelHash (modelHash [1]))⟩) := by
  decide

set_option maxRecDepth 100000 in
/-- C7: Merkle `verify` returns false on empty input, on a node not at
level 0, on a leaf index at or beyond the leaf count, and when the tree
has no stored root; on the committed S2 tree it returns true on every
non-empty subset of the committed leaves, false when supplied leaf data
is altered, and for a single supplied leaf it succeeds exactly when the
data equals the committed data. -/
theorem treeVerify_spec :
    (treeVerify modelHash 3 MapStore.empty s2Leaves = false) ∧
    (treeVerify modelHash 3 (s2Store modelHash) [] = false) ∧
    (treeVerify modelHash 3 (s2Store modelHash) [⟨(1, 0), [1]⟩] = false) ∧
    (treeVerify modelHash 3 (s2Store modelHash) [⟨(0, 7), [7]⟩] = false) ∧
    (∀ s ∈ s2Leaves.sublists, s ≠ [] →
      treeVerify modelHash 3 (s2Store modelHash) s = true) ∧
    (treeVerify modelHash 3 (s2Store modelHash) [⟨(0, 1), [4]⟩, ⟨(0, 5), [5]⟩] = false) ∧
    (treeVerify modelHash 3 (s2Store modelHash) [⟨(0, 1), [4]⟩, ⟨(0, 5), [1]⟩] = false) ∧
    (∀ i, i < 7 → ∀ d : Bytes,
      (treeVerify modelHash 3 (s2Store modelHash) [⟨(0, i), d⟩] = true ↔ d = [i])) := by
  refine ⟨by decide, by decide, by decide, by decide, by decide, by decide, by decide, ?_⟩
  intro i hi d
  interval_cases i
  · constructor
    · intro h
      have h2 : ((modelHash ((modelHash ((d ++ ([1] ++ ([2] ++ []))))) ++ (([0, 3, 4, 5] : Bytes) ++ ([0, 6] ++ [])))) == ([0, 0, 0, 1, 2, 0, 3, 4, 5, 0, 6] : Bytes)) = true := h
      have h3 := beq_iff_eq.mp h2
      simp [modelHash] at h3
      have h4 : d ++ [1, 2, 0, 3, 4, 5, 0, 6] = [0] ++ [1, 2, 0, 3, 4, 5, 0, 6] := by simpa using h3
      exact List.append_cancel_right h4
    · rintro rfl
      decide
  · constructor
    · intro h
      have h2 : ((modelHash ((modelHash (([0] : Bytes) ++ (d ++ ([2] ++ [])))) ++ (([0, 3, 4, 5] : Bytes) ++ ([0, 6] ++ [])))) == ([0, 0, 0, 1, 2, 0, 3, 4, 5, 0, 6] : Bytes)) = true := h
      have h3 := beq_iff_eq.mp h2
      simp [modelHash] at h3
      have h4 : d ++ [2, 0, 3, 4, 5, 0, 6] = [1] ++ [2, 0, 3, 4, 5, 0, 6] := by simpa using h3
      exact List.append_cancel_right h4
    · rintro rfl
      decide
  · constructor
    · intro h
      have h2 : ((modelHash ((modelHash (([0] : Bytes) ++ (([1] : Bytes) ++ (d ++ [])))) ++ (([0, 3, 4, 5] : Bytes) ++ ([0, 6] ++ [])))) == ([0, 0, 0, 1, 2, 0, 3, 4, 5, 0, 6] : Bytes)) = true := h
      have h3 := beq_iff_eq.mp h2
      simp [modelHash] at h3
      have h4 : d ++ [0, 3, 4, 5, 0, 6] = [2] ++ [0, 3, 4, 5, 0, 6] := by simpa using h3
      exact List.append_cancel_right h4
    · rintro rfl
      decide
  · constructor
    · intro h
      have h2 : ((modelHash (([0, 0, 1, 2] : Bytes) ++ ((modelHash ((d ++ ([4] ++ ([5] ++ []))))) ++ ([0, 6] ++ [])))) == ([0, 0, 0, 1, 2, 0, 3, 4, 5, 0, 6] : Bytes)) = true := h
      have h3 := beq_iff_eq.mp h2
      simp [modelHash] at h3
      have h4 : d ++ [4, 5, 0, 6] = [3] ++ [4, 5, 0, 6] := by simpa using h3
      exact List.append_cancel_right h4
    · rintro rfl
      decide
  · constructor
    · intro h
      have h2 : ((modelHash (([0, 0, 1, 2] : Bytes) ++ ((modelHash (([3] : Bytes) ++ (d ++ ([5] ++ [])))) ++ ([0, 6] ++ [])))) == ([0, 0, 0, 1, 2, 0, 3, 4, 5, 0, 6] : Bytes)) = true := h
      have h3 := beq_iff_eq.mp h2
      simp [modelHash] at h3
      have h4 : d ++ [5, 0, 6] = [4] ++ [5, 0, 6] := by simpa using h3
      exact List.append_cancel_right h4
    · rintro rfl
      decide
  · constructor
    · intro h
      have h2 : ((modelHash (([0, 0, 1, 2] : Bytes) ++ ((modelHash (([3] : Bytes) ++ (([4] : Bytes) ++ (d ++ [])))) ++ ([0, 6] ++ [])))) == ([0, 0, 0, 1, 2, 0, 3, 4, 5, 0, 6] : Bytes)) = true := h
      have h3 := beq_iff_eq.mp h2
      simp [modelHash] at h3
      have h4 : d ++ [0, 6] = [5] ++ [0, 6] := by simpa using h3
      exact List.append_cancel_right h4
    · rintro rfl
      decide
  · constructor
    · intro h
      have h2 : ((modelHash (([0, 0, 1, 2] : Bytes) ++ (([0, 3, 4, 5] : Bytes) ++ ((modelHash (d ++ ([] ++ ([] ++ [])))) ++ [])))) == ([0, 0, 0, 1, 2, 0, 3, 4, 5, 0, 6] : Bytes)) = true := h
      have h3 := beq_iff_eq.mp h2
      simp [modelHash] at h3
      exact h3
    · rintro rfl
      decide

/-- Witness: the single-leaf characterization and the subset property of
`treeVerify_spec` applied at concrete inputs. -/
theorem treeVerify_spec_witness :
    treeVerify modelHash 3 (s2Store modelHash) [⟨(0, 2), [2]⟩] = true ∧
    treeVerify modelHash 3 (s2Store modelHash) [⟨(0, 2), [9]⟩] = false ∧
    treeVerify modelHash 3 (s2Store modelHash) [⟨(0, 0), [0]⟩, ⟨(0, 4), [4]⟩] = true := by
  refine ⟨?_, ?_, ?_⟩
  · exact (treeVerify_spec.2.2.2.2.2.2.2 2 (by decide) [2]).mpr rfl
  · have h := treeVerify_spec.2.2.2.2.2.2.2 2 (by decide) [9]
    cases hb : treeVerify modelHash 3 (s2Store modelHash) [⟨(0, 2), [9]⟩] with
    | false => rfl
    | true => exact absurd (h.mp hb) (by decide)
  · exact treeVerify_spec.2.2.2.2.1 [⟨(0, 0), [0]⟩, ⟨(0, 4), [4]⟩] (by decide) (by decide)

/-- C4: `VerifyState` reads the value and its tree index, builds
`Node{position=(0, tree_index), data=H(value)}`, and runs the Merkle
tree's verify on that single node, returning the stored value exactly
when verification succeeds; a key without a tree index yields
state-not-found, and after the committed scenario `scChanges` every
written key verifies to its value while tampering with a stored value
makes verification fail. -/
theorem verifyState_spec :
    (∀ (H : Bytes → Bytes) (B : Nat) (st : StorageState) (k : Bytes),
      getMerkleIndex st k = none → verifyState H B st k = .error .stateNotFound) ∧
    (∀ (H : Bytes → Bytes) (B : Nat) (st : StorageState) (k : Bytes) (idx : Nat),
      getMerkleIndex st k = some idx →
        verifyState H B st k =
          (if treeVerify H B st.mstore [⟨(0, idx), H (getState st k)⟩] = true
           then .ok (getState st k) else .error .merkleVerifyFailed)) ∧
    (verifyState modelHash 3 scStore [1] = .ok [10]) ∧
    (verifyState modelHash 3 scStore [2] = .ok [20]) ∧
    (verifyState modelHash 3 scStore [3] = .ok [30]) ∧
    (verifyState modelHash 3 scStore [9] = .error .stateNotFound) ∧
    (∀ v : Bytes, v ≠ [20] →
      verifyState modelHash 3 (tamperState scStore [2] v) [2] =
        .error .merkleVerifyFailed) := by
  refine ⟨?_, ?_, by decide, by decide, by decide, by decide, ?_⟩
  · intro H B st k hk
    simp [verifyState, hk]
  · intro H B st k idx hk
    simp [verifyState, hk]
  · intro v hv
    rw [show verifyState modelHash 3 (tamperState scStore [2] v) [2] =
        (if treeVerify modelHash 3 scStore.mstore [⟨(0, 1), modelHash v⟩] = true
         then Except.ok v else Except.error StorageErr.merkleVerifyFailed) from rfl]
    cases hb : treeVerify modelHash 3 scStore.mstore [⟨(0, 1), modelHash v⟩] with
    | false => simp [hb]
    | true =>
      exfalso
      have h2 : ((modelHash (([0, 10] : Bytes) ++ ((modelHash v) ++ ([0, 30] ++ [])))) ==
          ([0, 0, 10, 0, 20, 0, 30] : Bytes)) = true := hb
      have h3 := beq_iff_eq.mp h2
      simp [modelHash] at h3
      have h4 : v ++ [0, 30] = [20] ++ [0, 30] := by simpa using h3
      exact hv (List.append_cancel_right h4)

/-- Witness: `verifyState_spec` applied at a key without a tree index and
at a concrete tampered value. -/
theorem verifyState_spec_witness :
    verifyState modelHash 3 scStore [9] = .error .stateNotFound ∧
    verifyState modelHash 3 (tamperState scStore [2] [99]) [2] =
      .error .merkleVerifyFailed := by
  constructor
  · exact verifyState_spec.1 modelHash 3 scStore [9] (by decide)
  · exact verifyState_spec.2.2.2.2.2.2 [99] (by decide)

/-- Witness: `qcValidate_threshold` instantiated at the S1 validator set
(4 keys) and a QC built from the votes of validators 2, 1, 0. -/
theorem qcValidate_threshold_witness :
    qcValidate ⟨[pubOf 0, pubOf 1, pubOf 2, pubOf 3]⟩
      (some (qcBuild [⟨[1], some (signWith 2 [1])⟩, ⟨[1], some (signWith 1 [1])⟩,
        ⟨[1], some (signWith 0 [1])⟩])) = .ok () := by
  exact (qcValidate_threshold.1 _ _).mpr
    ⟨[signWith 2 [1], signWith 1 [1], signWith 0 [1]],
      by decide, by decide, by decide, by decide⟩

/-- Witness: `storageCommit_write_order` applied at a concrete failure of
the state+merkle batch. -/
theorem storageCommit_write_order_witness :
    ((fun w : WStep => match w with | WStep.stateMerkle => some 7 | _ => none)
        WStep.chainData = some 7) ∨
    ((fun w : WStep => match w with | WStep.stateMerkle => some 7 | _ => none)
        WStep.blockCommit = some 7) ∨
    ((fun w : WStep => match w with | WStep.stateMerkle => some 7 | _ => none)
        WStep.stateMerkle = some 7) ∨
    ((fun w : WStep => match w with | WStep.stateMerkle => some 7 | _ => none)
        WStep.blockHeight = some 7) := by
  exact storageCommit_write_order.2.2.2.2.2.2.2.2 true
    (fun w : WStep => match w with | WStep.stateMerkle => some 7 | _ => none) 7 (by decide)

end Juria
